import Mathlib

/-
  Verification of the lsh shell (src/shell.c).

  The C program is embedded shallowly:
  * strings are lists of characters; the NUL-terminated token array is a
    list of tokens, with the terminating NULL modelled explicitly where a
    claim is about it;
  * OS calls (chdir, fork, waitpid, getline) are modelled by oracles that
    enumerate their possible outcomes; the shell code itself is translated
    branch for branch;
  * side effects (stdout, stderr, chdir, the wait on a child) are collected
    in an explicit effect trace;
  * the C functions return int; CONTINUE is 1 and TERMINATE is 0, exactly
    the literals the source returns, and the loop condition `while (status)`
    keeps looping while the status is nonzero.
-/

/-- LSH_TOK_DELIM is " \t\r\n\a": space, tab, carriage return, newline, bell
(character 7). A character is a delimiter iff it is one of these. -/
def isDelim (c : Char) : Bool :=
  c == ' ' || c == '\t' || c == '\r' || c == '\n' || c == Char.ofNat 7

/-- Model of the strtok loop in lsh_split_line: scan the line, accumulating
the current (reversed) in-progress token in acc; a delimiter ends the token,
and runs of delimiters produce nothing. -/
def splitAux : List Char → List Char → List (List Char)
  | [], acc => if acc = [] then [] else [acc.reverse]
  | c :: cs, acc =>
      if isDelim c then
        if acc = [] then splitAux cs [] else acc.reverse :: splitAux cs []
      else
        splitAux cs (c :: acc)

/-- lsh_split_line, token content: the ordered sequence of tokens that the
strtok loop stores into the array (src/shell.c lines 115-146). The array
layout itself (capacity growth and the NULL sentinel) is modelled separately
by splitSim below, fed with this same token sequence. -/
def lsh_split_line (line : List Char) : List (List Char) :=
  splitAux line []

/-- Claim-side definition, following the spec text: the number of maximal
non-whitespace runs in a line. The boolean argument records whether the scan
is currently inside a run. -/
def specRunCountAux : Bool → List Char → Nat
  | _, [] => 0
  | inRun, c :: cs =>
      if isDelim c then specRunCountAux false cs
      else (if inRun then 0 else 1) + specRunCountAux true cs

/-- Claim-side definition: the number of maximal non-whitespace runs. -/
def specRunCount (line : List Char) : Nat :=
  specRunCountAux false line

theorem splitAux_length (l : List Char) :
    ∀ acc : List Char,
      (splitAux l acc).length =
        specRunCountAux (decide (acc ≠ [])) l + (if acc = [] then 0 else 1) := by
  induction l with
  | nil =>
      intro acc
      by_cases h : acc = [] <;> simp [splitAux, specRunCountAux, h]
  | cons c cs ih =>
      intro acc
      by_cases hd : isDelim c
      · by_cases h : acc = [] <;>
          simp [splitAux, specRunCountAux, hd, h, ih []]
      · simp only [splitAux, hd, Bool.false_eq_true, if_false, specRunCountAux]
        rw [ih (c :: acc)]
        by_cases h : acc = [] <;> simp [h] <;> omega

theorem splitAux_no_empty (l : List Char) :
    ∀ acc t, t ∈ splitAux l acc → t ≠ [] := by
  induction l with
  | nil =>
      intro acc t ht
      by_cases h : acc = [] <;> simp [splitAux, h] at ht
      subst ht
      simpa using fun hc => h (by simpa using congrArg List.reverse hc)
  | cons c cs ih =>
      intro acc t ht
      by_cases hd : isDelim c
      · by_cases h : acc = []
        · exact ih [] t (by simpa [splitAux, hd, h] using ht)
        · rcases (by simpa [splitAux, hd, h] using ht : t = acc.reverse ∨ t ∈ splitAux cs []) with
            h1 | h2
          · subst h1
            simpa using fun hc => h (by simpa using congrArg List.reverse hc)
          · exact ih [] t h2
      · exact ih (c :: acc) t (by simpa [splitAux, hd] using ht)

/-- C2: for every input line, lsh_split_line splits on maximal runs of the
whitespace-class characters (space, tab, carriage return, newline, bell),
produces no empty tokens, and the number of tokens equals the number of
maximal non-whitespace runs in the line. -/
theorem lsh_split_line_run_count (line : List Char) :
    (lsh_split_line line).length = specRunCount line ∧
      (lsh_split_line line).all (fun t => !t.isEmpty) = true := by
  constructor
  · simpa [lsh_split_line, specRunCount] using splitAux_length line []
  · refine List.all_eq_true.mpr ?_
    intro t ht
    have := splitAux_no_empty line [] t (by simpa [lsh_split_line] using ht)
    simp [List.isEmpty_iff, this]

/-- Execution status CONTINUE: the literal 1 that every non-exit path in
src/shell.c returns, and that keeps `while (status)` looping. -/
def LSH_CONTINUE : Nat := 1

/-- Execution status TERMINATE: the literal 0 that lsh_exit returns, which
makes `while (status)` stop. -/
def LSH_TERMINATE : Nat := 0

/-- Process exit code EXIT_SUCCESS. -/
def EXIT_SUCCESS : Nat := 0

/-- Process exit code EXIT_FAILURE. -/
def EXIT_FAILURE : Nat := 1

/-- A waitpid status as observed through the WIFEXITED / WIFSIGNALED macros:
the child stopped (reported because of WUNTRACED), exited normally with a
code, or was terminated by a signal. -/
inductive WaitStatus where
  | stopped : WaitStatus
  | exited : Nat → WaitStatus
  | signaled : Nat → WaitStatus
deriving DecidableEq, Repr

def WIFEXITED : WaitStatus → Bool
  | .exited _ => true
  | _ => false

def WIFSIGNALED : WaitStatus → Bool
  | .signaled _ => true
  | _ => false

/-- The do-while wait loop of lsh_launch: call waitpid, and repeat while the
returned status is neither an exit nor a death by signal (i.e. while the
child merely stopped). Returns the first terminal status delivered, or none
if the stream of statuses runs out (which the OS model below rules out). -/
def waitLoop : List WaitStatus → Option WaitStatus
  | [] => none
  | s :: rest => if !WIFEXITED s && !WIFSIGNALED s then waitLoop rest else some s

/-- A terminal state of a child process: normal exit or death by signal. -/
inductive Terminal where
  | exitCode : Nat → Terminal
  | signal : Nat → Terminal
deriving DecidableEq, Repr

def Terminal.toWait : Terminal → WaitStatus
  | .exitCode n => .exited n
  | .signal n => .signaled n

/-- Oracle for one spawned child: waitpid (with WUNTRACED) reports some
number of stop events and then exactly one terminal state. -/
structure ChildRun where
  stops : Nat
  final : Terminal
deriving DecidableEq, Repr

/-- The stream of statuses waitpid delivers for a child run. -/
def childStatuses (r : ChildRun) : List WaitStatus :=
  List.replicate r.stops .stopped ++ [r.final.toWait]

/-- Oracle for one fork() call: it either fails (returns a negative pid) or
creates a child whose subsequent wait statuses are given by the run. -/
inductive ForkOutcome where
  | failed : ForkOutcome
  | spawned : ChildRun → ForkOutcome
deriving DecidableEq, Repr

/-- One observable side effect of the shell (in the parent process). -/
inductive Eff where
  | outStr : String → Eff
  | errStr : String → Eff
  | chdirCall : List Char → Eff
  | waited : WaitStatus → Eff
deriving DecidableEq, Repr

def Eff.isOut : Eff → Bool
  | .outStr _ => true
  | _ => false

/-- lsh_launch (src/shell.c lines 176-200), seen from the parent process.
If fork fails, perror reports the error and the function returns 1 without
waiting. Otherwise the parent runs the do-while waitpid loop until the child
reaches a terminal state, then returns 1 — the exit code of the child is never
consulted. (The child branch, execvp and exit on failure, happens in the
address space of the child and produces no parent-side effect here.) -/
def lsh_launch (args : List (List Char)) (fork : ForkOutcome) : Nat × List Eff :=
  match fork with
  | .failed => (1, [.errStr "lsh"])
  | .spawned r =>
      match waitLoop (childStatuses r) with
      | some t => (1, [.waited t])
      | none => (1, [])

/-- Oracle for the OS calls one dispatch can make. -/
structure World where
  chdirOk : Bool
  fork : ForkOutcome
deriving DecidableEq, Repr

/-- lsh_cd (src/shell.c lines 34-41): if args[1] is NULL print the
expected-argument diagnostic, otherwise call chdir(args[1]) and perror on
failure; return 1 in every case. -/
def lsh_cd (args : List (List Char)) (chdirOk : Bool) : Nat × List Eff :=
  match args.get? 1 with
  | none => (1, [.errStr "lsh: expected argument to \x22cd\x22\n"])
  | some path =>
      if chdirOk then (1, [.chdirCall path])
      else (1, [.chdirCall path, .errStr "lsh"])

/-- builtin_str: the registered builtin names, in declaration order. -/
def builtin_str : List String := ["cd", "help", "exit"]

def lsh_num_builtins : Nat := builtin_str.length

/-- lsh_help (src/shell.c lines 43-54): print the banner, then one line per
registered builtin name in order, then the closing line; return 1. -/
def lsh_help (args : List (List Char)) : Nat × List Eff :=
  (1,
    [Eff.outStr "Jermaine\x27s LSH\n",
     Eff.outStr "Type program names and arguments, and hit enter\n",
     Eff.outStr "The following are built in:\n"]
    ++ builtin_str.map (fun s => Eff.outStr (" " ++ s ++ "\n"))
    ++ [Eff.outStr "Use the man command for information on other programs.\n"])

/-- lsh_exit (src/shell.c lines 56-58): return 0, ignoring the arguments. -/
def lsh_exit (args : List (List Char)) : Nat × List Eff :=
  (0, [])

/-- builtin_func: the handlers, positionally parallel to builtin_str. The
World argument threads the OS oracles to the handlers that use them. -/
def builtin_func : List (List (List Char) → World → Nat × List Eff) :=
  [fun args w => lsh_cd args w.chdirOk,
   fun args _ => lsh_help args,
   fun args _ => lsh_exit args]

/-- The dispatch for-loop of lsh_execute: compare args[0] against each
registered name in order (strcmp == 0 is exact equality); on the first match
call the parallel handler; if no name matches, fall through to lsh_launch. -/
def dispatchLoop (args : List (List Char)) (arg0 : List Char) (w : World) :
    List (String × (List (List Char) → World → Nat × List Eff)) → Nat × List Eff
  | [] => lsh_launch args w.fork
  | (name, f) :: rest =>
      if arg0 = name.toList then f args w else dispatchLoop args arg0 w rest

/-- lsh_execute (src/shell.c lines 202-209): an empty command returns 1 with
no effect; otherwise dispatch on args[0] over the builtin table, falling back
to lsh_launch. -/
def lsh_execute (args : List (List Char)) (w : World) : Nat × List Eff :=
  match args with
  | [] => (1, [])
  | arg0 :: _ => dispatchLoop args arg0 w (builtin_str.zip builtin_func)

theorem lsh_execute_cons (arg0 : List Char) (rest : List (List Char)) (w : World) :
    lsh_execute (arg0 :: rest) w =
      if arg0 = "cd".toList then lsh_cd (arg0 :: rest) w.chdirOk
      else if arg0 = "help".toList then lsh_help (arg0 :: rest)
      else if arg0 = "exit".toList then lsh_exit (arg0 :: rest)
      else lsh_launch (arg0 :: rest) w.fork := rfl

theorem lsh_cd_ret (args : List (List Char)) (ok : Bool) :
    (lsh_cd args ok).fst = 1 := by
  unfold lsh_cd
  cases args.get? 1 with
  | none => rfl
  | some p => cases ok <;> rfl

theorem lsh_launch_ret (args : List (List Char)) (fork : ForkOutcome) :
    (lsh_launch args fork).fst = 1 := by
  unfold lsh_launch
  cases fork with
  | failed => rfl
  | spawned r => cases h : waitLoop (childStatuses r) <;> simp [h]

theorem waitLoop_childStatuses (r : ChildRun) :
    waitLoop (childStatuses r) = some r.final.toWait := by
  unfold childStatuses
  induction r.stops with
  | zero => cases r.final <;> rfl
  | succ n ih => simpa [List.replicate_succ, waitLoop, WIFEXITED, WIFSIGNALED] using ih

/-- Oracle for one getline call on stdin: it yields a line, or fails at
End-of-Input (feof true), or fails with a read error (feof false). -/
inductive ReadEvent where
  | line : List Char → ReadEvent
  | eof : ReadEvent
  | readError : ReadEvent
deriving DecidableEq, Repr

/-- lsh_read_line (src/shell.c lines 98-109): on success return the line; if
getline fails at End-of-Input call exit(EXIT_SUCCESS); on any other failure
perror a diagnostic and call exit(EXIT_FAILURE). The error value carries the
process exit code and whether a diagnostic was written. -/
def lsh_read_line (ev : ReadEvent) : Except (Nat × Bool) (List Char) :=
  match ev with
  | .line l => .ok l
  | .eof => .error (EXIT_SUCCESS, false)
  | .readError => .error (EXIT_FAILURE, true)

/-- One heap event of a loop iteration: the line buffer of getline is allocated,
the token array is allocated by lsh_split_line, and lsh_loop frees first the
token array and then the line. -/
inductive MemEv where
  | allocLine : MemEv
  | allocArgs : MemEv
  | freeArgs : MemEv
  | freeLine : MemEv
deriving DecidableEq, Repr

def memDelta : MemEv → Int
  | .allocLine => 1
  | .allocArgs => 1
  | .freeArgs => -1
  | .freeLine => -1

/-- Number of per-iteration buffers still allocated after a ledger of heap
events. -/
def liveBuffers (led : List MemEv) : Int :=
  (led.map memDelta).sum

/-- How one iteration of the do-while loop in lsh_loop ends: either it runs
to the bottom and the loop tests the dispatch status, or exit() is called
somewhere inside it (carrying the process exit code and whether a diagnostic
was written) and the whole process terminates. -/
inductive IterStep where
  | next : Nat → IterStep
  | procExit : Nat → Bool → IterStep
deriving DecidableEq, Repr

/-- Oracle for one loop iteration: the getline outcome, whether the token
array allocations in lsh_split_line succeed, and the OS oracle for dispatch. -/
structure IterOracle where
  read : ReadEvent
  allocOk : Bool
  world : World
deriving DecidableEq, Repr

/-- One iteration of lsh_loop (src/shell.c lines 216-224): print the prompt,
lsh_read_line, lsh_split_line, lsh_execute, free(args), free(line). If
getline fails, lsh_read_line exits the process before any buffer of this
iteration is guaranteed allocated; if an allocation inside lsh_split_line
fails, the allocation-error diagnostic is written and exit(EXIT_FAILURE) is
called while the line buffer is still allocated. -/
def lsh_iterate (o : IterOracle) : List MemEv × IterStep :=
  match lsh_read_line o.read with
  | .error (code, diag) => ([], .procExit code diag)
  | .ok l =>
      if o.allocOk then
        let args := lsh_split_line l
        let st := (lsh_execute args o.world).fst
        ([.allocLine, .allocArgs, .freeArgs, .freeLine], .next st)
      else
        ([.allocLine], .procExit EXIT_FAILURE true)

/-- Buffers live after an iteration step. When the step is procExit the
process terminates, and process termination releases every allocation the
process still holds, so nothing stays live. -/
def liveAfterStep (led : List MemEv) (st : IterStep) : Int :=
  match st with
  | .next _ => liveBuffers led
  | .procExit _ _ => 0

/-- How a run of the whole shell ends. -/
inductive ProgResult where
  | exited : Nat → Bool → ProgResult
  | outOfInput : ProgResult
deriving DecidableEq, Repr

/-- lsh_loop (src/shell.c lines 211-225) over a list of per-iteration
oracles: run an iteration; if it called exit() the process is done with that
code; otherwise repeat while the status is nonzero. Returns outOfInput when
the oracle list is exhausted before the loop ends. -/
def lsh_loop : List IterOracle → ProgResult
  | [] => .outOfInput
  | o :: rest =>
      match (lsh_iterate o).snd with
      | .procExit c d => .exited c d
      | .next st => if st = 0 then .exited EXIT_SUCCESS false else lsh_loop rest

/-- main (src/shell.c lines 227-235): run lsh_loop and return EXIT_SUCCESS.
In the model lsh_loop already folds that return into its .exited result when
the loop leaves normally, so main is lsh_loop. -/
def shell_main (inputs : List IterOracle) : ProgResult :=
  lsh_loop inputs

/-- The token array of lsh_split_line modelled at the buffer level: cell
contents are addressed by index, none standing for NULL / not yet written. -/
def writeCell (a : Nat → Option (List Char)) (i : Nat) (v : Option (List Char)) :
    Nat → Option (List Char) :=
  fun j => if j = i then v else a j

def LSH_TOK_BUFSIZE : Nat := 64

/-- Result of the buffer simulation: final write position, final capacity,
and the array contents. -/
structure SplitSimOut where
  pos : Nat
  buffsize : Nat
  arr : Nat → Option (List Char)

/-- The storing loop of lsh_split_line (src/shell.c lines 126-145), fed with
the token sequence the strtok loop produces: store each token at pos,
increment pos, and when pos reaches the capacity grow the buffer by
LSH_TOK_BUFSIZE (realloc preserves contents); after the last token store
NULL at pos. -/
def splitSim : List (List Char) → Nat → Nat → (Nat → Option (List Char)) → SplitSimOut
  | [], pos, bs, a => ⟨pos, bs, writeCell a pos none⟩
  | t :: ts, pos, bs, a =>
      let a2 := writeCell a pos (some t)
      let pos2 := pos + 1
      let bs2 := if bs ≤ pos2 then bs + LSH_TOK_BUFSIZE else bs
      splitSim ts pos2 bs2 a2

theorem splitSim_nil (pos bs : Nat) (a : Nat → Option (List Char)) :
    splitSim [] pos bs a = ⟨pos, bs, writeCell a pos none⟩ := rfl

theorem splitSim_cons (t : List Char) (ts : List (List Char)) (pos bs : Nat)
    (a : Nat → Option (List Char)) :
    splitSim (t :: ts) pos bs a =
      splitSim ts (pos + 1) (if bs ≤ pos + 1 then bs + LSH_TOK_BUFSIZE else bs)
        (writeCell a pos (some t)) := rfl

theorem splitSim_spec (ts : List (List Char)) :
    ∀ (pos bs : Nat) (a : Nat → Option (List Char)), pos < bs →
      (splitSim ts pos bs a).pos = pos + ts.length ∧
      (splitSim ts pos bs a).pos < (splitSim ts pos bs a).buffsize ∧
      (splitSim ts pos bs a).arr (splitSim ts pos bs a).pos = none ∧
      (∀ j, j < pos → (splitSim ts pos bs a).arr j = a j) ∧
      (∀ i, ∀ h : i < ts.length,
        (splitSim ts pos bs a).arr (pos + i) = some (ts.get ⟨i, h⟩)) := by
  induction ts with
  | nil =>
      intro pos bs a hlt
      rw [splitSim_nil]
      refine ⟨by simp, by simpa using hlt, ?_, ?_, ?_⟩
      · simp [writeCell]
      · intro j hj
        simp [writeCell, Nat.ne_of_lt hj]
      · intro i h
        exact absurd h (by simp)
  | cons t ts ih =>
      intro pos bs a hlt
      have hinv : pos + 1 < if bs ≤ pos + 1 then bs + LSH_TOK_BUFSIZE else bs := by
        by_cases hb : bs ≤ pos + 1
        · simp only [hb, if_true]
          have hh : LSH_TOK_BUFSIZE = 64 := rfl
          omega
        · simp only [hb, if_false]
          omega
      obtain ⟨h1, h2, h3, h4, h5⟩ :=
        ih (pos + 1) (if bs ≤ pos + 1 then bs + LSH_TOK_BUFSIZE else bs)
          (writeCell a pos (some t)) hinv
      rw [splitSim_cons]
      refine ⟨?_, h2, h3, ?_, ?_⟩
      · rw [h1]
        simp
        omega
      · intro j hj
        rw [h4 j (by omega)]
        simp [writeCell, Nat.ne_of_lt hj]
      · intro i h
        cases i with
        | zero =>
            have hx := h4 pos (by omega)
            simpa [writeCell] using hx
        | succ n =>
            have hn : n < ts.length := by simpa using h
            have hx := h5 n hn
            have harith : pos + (n + 1) = pos + 1 + n := by omega
            rw [harith, hx]
            rfl


theorem lsh_help_ret (args : List (List Char)) : (lsh_help args).fst = 1 := rfl

theorem lsh_iterate_line (l : List Char) (w : World) :
    lsh_iterate ⟨.line l, true, w⟩ =
      ([.allocLine, .allocArgs, .freeArgs, .freeLine],
        .next (lsh_execute (lsh_split_line l) w).fst) := rfl

theorem lsh_iterate_procExit_cases (o : IterOracle) (c : Nat) (d : Bool)
    (h : (lsh_iterate o).snd = .procExit c d) :
    (c = EXIT_SUCCESS ∧ d = false) ∨ (c = EXIT_FAILURE ∧ d = true) := by
  obtain ⟨r, a, w⟩ := o
  cases r with
  | line l =>
      cases a with
      | false =>
          have h2 : IterStep.procExit EXIT_FAILURE true = IterStep.procExit c d := h
          injection h2 with hc hd
          subst hc
          subst hd
          exact Or.inr ⟨rfl, rfl⟩
      | true =>
          have h2 : IterStep.next ((lsh_execute (lsh_split_line l) w).fst) =
              IterStep.procExit c d := h
          exact absurd h2 (by simp)
  | eof =>
      have h2 : IterStep.procExit EXIT_SUCCESS false = IterStep.procExit c d := h
      injection h2 with hc hd
      subst hc
      subst hd
      exact Or.inl ⟨rfl, rfl⟩
  | readError =>
      have h2 : IterStep.procExit EXIT_FAILURE true = IterStep.procExit c d := h
      injection h2 with hc hd
      subst hc
      subst hd
      exact Or.inr ⟨rfl, rfl⟩

theorem lsh_loop_cons (o : IterOracle) (rest : List IterOracle) :
    lsh_loop (o :: rest) =
      match (lsh_iterate o).snd with
      | .procExit c d => ProgResult.exited c d
      | .next st =>
          if st = 0 then ProgResult.exited EXIT_SUCCESS false else lsh_loop rest := rfl

theorem lsh_loop_cons_procExit (o : IterOracle) (rest : List IterOracle)
    (c : Nat) (d : Bool) (hit : (lsh_iterate o).snd = .procExit c d) :
    shell_main (o :: rest) = .exited c d := by
  show lsh_loop (o :: rest) = _
  rw [lsh_loop_cons, hit]

theorem lsh_loop_cons_next (o : IterOracle) (rest : List IterOracle)
    (st : Nat) (hit : (lsh_iterate o).snd = .next st) :
    shell_main (o :: rest) =
      if st = 0 then ProgResult.exited EXIT_SUCCESS false else lsh_loop rest := by
  show lsh_loop (o :: rest) = _
  rw [lsh_loop_cons, hit]

/-- C1: for every token sequence, lsh_launch returns CONTINUE in every case:
when fork fails it reports the error (perror) and returns CONTINUE without
attempting to wait (no waited effect), and when a child is created it is
awaited through any stops to its terminal state and lsh_launch still returns
CONTINUE whatever exit code or signal ended the child. -/
theorem lsh_launch_always_continue (args : List (List Char)) (fork : ForkOutcome) :
    (lsh_launch args fork).fst = LSH_CONTINUE ∧
    lsh_launch args .failed = (LSH_CONTINUE, [.errStr "lsh"]) ∧
    (∀ r : ChildRun,
      lsh_launch args (.spawned r) = (LSH_CONTINUE, [.waited r.final.toWait])) := by
  refine ⟨lsh_launch_ret args fork, rfl, ?_⟩
  intro r
  simp [lsh_launch, waitLoop_childStatuses r, LSH_CONTINUE]

/-- C3: the whole-program exit code is 0 when End-of-Input is reached or the
exit builtin is dispatched, and 1 (with a diagnostic) on a read failure that
is not End-of-Input or on an allocation failure; in both fatal cases the
result does not depend on the remaining input, so the failure is not
retried; and every possible program exit is one of these two shapes. -/
theorem shell_exit_codes :
    (∀ (a : Bool) (w : World) (rest : List IterOracle),
        shell_main (⟨.eof, a, w⟩ :: rest) = .exited EXIT_SUCCESS false) ∧
    (∀ (a : Bool) (w : World) (rest : List IterOracle),
        shell_main (⟨.readError, a, w⟩ :: rest) = .exited EXIT_FAILURE true) ∧
    (∀ (l : List Char) (w : World) (rest : List IterOracle),
        shell_main (⟨.line l, false, w⟩ :: rest) = .exited EXIT_FAILURE true) ∧
    (∀ (w : World) (rest : List IterOracle),
        shell_main (⟨.line "exit".toList, true, w⟩ :: rest) =
          .exited EXIT_SUCCESS false) ∧
    (∀ (inputs : List IterOracle) (c : Nat) (d : Bool),
        shell_main inputs = .exited c d →
          (c = EXIT_SUCCESS ∧ d = false) ∨ (c = EXIT_FAILURE ∧ d = true)) := by
  refine ⟨fun a w rest => rfl, fun a w rest => rfl, fun l w rest => rfl, ?_, ?_⟩
  · intro w rest
    have hsplit : lsh_split_line ("exit".toList) = ["exit".toList] := by decide
    have hst : (lsh_execute ["exit".toList] w).fst = 0 := by
      rw [lsh_execute_cons, if_neg (by decide), if_neg (by decide), if_pos rfl]
      rfl
    have h0 : (lsh_iterate ⟨.line "exit".toList, true, w⟩).snd = IterStep.next 0 := by
      rw [lsh_iterate_line, hsplit, hst]
    rw [lsh_loop_cons_next _ rest 0 h0, if_pos rfl]
  · intro inputs
    induction inputs with
    | nil => intro c d h; exact absurd h (by simp [shell_main, lsh_loop])
    | cons o rest ih =>
        intro c d h
        cases hit : (lsh_iterate o).snd with
        | procExit c2 d2 =>
            rw [lsh_loop_cons_procExit o rest c2 d2 hit] at h
            injection h with hc hd
            subst hc
            subst hd
            exact lsh_iterate_procExit_cases o _ _ hit
        | next st =>
            rw [lsh_loop_cons_next o rest st hit] at h
            by_cases hs : st = 0
            · rw [if_pos hs] at h
              injection h with hc hd
              exact Or.inl ⟨hc.symm, hd.symm⟩
            · rw [if_neg hs] at h
              exact ih c d h

theorem shell_exit_codes_witness :
    shell_main [⟨.eof, true, ⟨true, .failed⟩⟩] = .exited EXIT_SUCCESS false ∧
    ((EXIT_SUCCESS = EXIT_SUCCESS ∧ false = false) ∨
      (EXIT_SUCCESS = EXIT_FAILURE ∧ false = true)) :=
  ⟨shell_exit_codes.1 true ⟨true, .failed⟩ [],
   shell_exit_codes.2.2.2.2 [⟨.eof, true, ⟨true, .failed⟩⟩] EXIT_SUCCESS false
     (by decide)⟩

/-- C4: lsh_cd always returns CONTINUE; with no argument it writes exactly
the expected-argument diagnostic and performs no chdir call (so the working
directory is unchanged); when chdir is called and fails it reports the OS
error via perror and still returns CONTINUE. -/
theorem lsh_cd_error_handling (args : List (List Char)) (ok : Bool) :
    (lsh_cd args ok).fst = LSH_CONTINUE ∧
    (args.get? 1 = none →
      lsh_cd args ok =
        (LSH_CONTINUE, [.errStr "lsh: expected argument to \x22cd\x22\n"])) ∧
    (∀ p, args.get? 1 = some p → ok = false →
      lsh_cd args ok = (LSH_CONTINUE, [.chdirCall p, .errStr "lsh"])) := by
  refine ⟨lsh_cd_ret args ok, ?_, ?_⟩
  · intro h
    unfold lsh_cd
    rw [h]
    rfl
  · intro p hp hok
    unfold lsh_cd
    rw [hp, hok]
    rfl

theorem lsh_cd_error_handling_witness :
    lsh_cd ["cd".toList] true =
      (LSH_CONTINUE, [Eff.errStr "lsh: expected argument to \x22cd\x22\n"]) ∧
    lsh_cd ["cd".toList, "/tmp".toList] false =
      (LSH_CONTINUE, [Eff.chdirCall ("/tmp".toList), Eff.errStr "lsh"]) :=
  ⟨(lsh_cd_error_handling ["cd".toList] true).2.1 (by decide),
   (lsh_cd_error_handling ["cd".toList, "/tmp".toList] false).2.2
     ("/tmp".toList) (by decide) rfl⟩

/-- C5: lsh_exit returns TERMINATE unconditionally, ignoring any further
arguments, and dispatching any command whose first token is the string
"exit" yields TERMINATE whatever the remaining arguments and OS oracles. -/
theorem lsh_exit_terminates :
    (∀ args : List (List Char), lsh_exit args = (LSH_TERMINATE, [])) ∧
    (∀ (rest : List (List Char)) (w : World),
      (lsh_execute ("exit".toList :: rest) w).fst = LSH_TERMINATE) := by
  refine ⟨fun args => rfl, ?_⟩
  intro rest w
  rw [lsh_execute_cons, if_neg (by decide), if_neg (by decide), if_pos rfl]
  rfl

/-- C6: lsh_help returns CONTINUE and its effect trace is exactly the fixed
banner followed by the builtin names cd, help, exit in registration order
(the order of builtin_str) and the closing line; every effect is a write to
standard output, so there is no side effect beyond output. -/
theorem lsh_help_output (args : List (List Char)) :
    lsh_help args =
      (LSH_CONTINUE,
        [Eff.outStr "Jermaine\x27s LSH\n",
         Eff.outStr "Type program names and arguments, and hit enter\n",
         Eff.outStr "The following are built in:\n",
         Eff.outStr " cd\n",
         Eff.outStr " help\n",
         Eff.outStr " exit\n",
         Eff.outStr "Use the man command for information on other programs.\n"]) ∧
    (lsh_help args).snd.all Eff.isOut = true ∧
    builtin_str = ["cd", "help", "exit"] := by
  have h1 : lsh_help args =
      (LSH_CONTINUE,
        [Eff.outStr "Jermaine\x27s LSH\n",
         Eff.outStr "Type program names and arguments, and hit enter\n",
         Eff.outStr "The following are built in:\n",
         Eff.outStr " cd\n",
         Eff.outStr " help\n",
         Eff.outStr " exit\n",
         Eff.outStr "Use the man command for information on other programs.\n"]) := by
    have h0 : lsh_help args = lsh_help [] := rfl
    rw [h0]
    decide
  refine ⟨h1, ?_, rfl⟩
  rw [h1]
  decide

/-- C7: the empty line and any line made only of whitespace-class characters
tokenize to zero tokens, and dispatching an empty command returns CONTINUE
with an empty effect trace. -/
theorem empty_command_noop :
    lsh_split_line [] = [] ∧
    (∀ line : List Char, (∀ c ∈ line, isDelim c = true) → lsh_split_line line = []) ∧
    (∀ w : World, lsh_execute [] w = (LSH_CONTINUE, [])) := by
  refine ⟨rfl, ?_, fun w => rfl⟩
  intro line
  show (∀ c ∈ line, isDelim c = true) → splitAux line [] = []
  induction line with
  | nil => intro _; rfl
  | cons c cs ih =>
      intro h
      have hc : isDelim c = true := h c (by simp)
      simp only [splitAux, hc, if_true]
      exact ih (fun x hx => h x (by simp [hx]))

theorem empty_command_noop_witness :
    lsh_split_line (" \t\x07\r\n".toList) = [] :=
  empty_command_noop.2.1 (" \t\x07\r\n".toList) (by decide)

/-- C8: on an iteration that runs to the loop test, the heap ledger is
exactly allocate-line, allocate-tokens, free-tokens, free-line, so both
buffers acquired by the iteration are freed before the next iteration begins
and no command data persists; after a step that terminates the process
(End-of-Input, read failure or allocation failure) no buffer remains live
either, because process termination releases every allocation. -/
theorem iteration_buffers_released (o : IterOracle) :
    liveAfterStep (lsh_iterate o).fst (lsh_iterate o).snd = 0 ∧
    (∀ st led, lsh_iterate o = (led, .next st) →
      led = [.allocLine, .allocArgs, .freeArgs, .freeLine]) := by
  obtain ⟨r, a, w⟩ := o
  cases r with
  | line l =>
      cases a with
      | true =>
          refine ⟨rfl, ?_⟩
          intro st led h
          have h2 : ([MemEv.allocLine, .allocArgs, .freeArgs, .freeLine],
              IterStep.next ((lsh_execute (lsh_split_line l) w).fst)) = (led, .next st) := h
          injection h2 with hl hs
          exact hl.symm
      | false =>
          refine ⟨rfl, ?_⟩
          intro st led h
          have h2 : ([MemEv.allocLine], IterStep.procExit EXIT_FAILURE true) =
              (led, IterStep.next st) := h
          injection h2 with hl hs
          exact absurd hs (by simp)
  | eof =>
      refine ⟨rfl, ?_⟩
      intro st led h
      have h2 : (([] : List MemEv), IterStep.procExit EXIT_SUCCESS false) =
          (led, IterStep.next st) := h
      injection h2 with hl hs
      exact absurd hs (by simp)
  | readError =>
      refine ⟨rfl, ?_⟩
      intro st led h
      have h2 : (([] : List MemEv), IterStep.procExit EXIT_FAILURE true) =
          (led, IterStep.next st) := h
      injection h2 with hl hs
      exact absurd hs (by simp)

theorem iteration_buffers_released_witness :
    lsh_iterate ⟨.line "ls".toList, true, ⟨true, .failed⟩⟩ =
      ([.allocLine, .allocArgs, .freeArgs, .freeLine], .next 1) ∧
    [MemEv.allocLine, .allocArgs, .freeArgs, .freeLine] =
      [MemEv.allocLine, .allocArgs, .freeArgs, .freeLine] :=
  ⟨by decide,
   (iteration_buffers_released ⟨.line "ls".toList, true, ⟨true, .failed⟩⟩).2 1
     [.allocLine, .allocArgs, .freeArgs, .freeLine] (by decide)⟩

/-- C9: dispatching a non-empty command returns TERMINATE exactly when its
first token is the string "exit": every other first token (the other
builtins or an external launch) yields CONTINUE, so the exit builtin is the
only dispatch path that can stop the loop. -/
theorem exit_only_terminate (args : List (List Char)) (w : World) :
    (lsh_execute args w).fst = LSH_TERMINATE ↔
      ∃ rest, args = "exit".toList :: rest := by
  cases args with
  | nil =>
      constructor
      · intro h
        have h2 : (1 : Nat) = LSH_TERMINATE := h
        exact absurd h2 (by decide)
      · rintro ⟨rest, hr⟩
        exact absurd hr (by simp)
  | cons arg0 rest =>
      constructor
      · intro h
        rw [lsh_execute_cons] at h
        by_cases h1 : arg0 = "cd".toList
        · rw [if_pos h1, lsh_cd_ret] at h
          exact absurd h (by decide)
        · rw [if_neg h1] at h
          by_cases h2 : arg0 = "help".toList
          · rw [if_pos h2, lsh_help_ret] at h
            exact absurd h (by decide)
          · rw [if_neg h2] at h
            by_cases h3 : arg0 = "exit".toList
            · exact ⟨rest, by rw [h3]⟩
            · rw [if_neg h3, lsh_launch_ret] at h
              exact absurd h (by decide)
      · rintro ⟨rest2, hr⟩
        injection hr with hr0 hr1
        subst hr0
        rw [lsh_execute_cons, if_neg (by decide), if_neg (by decide), if_pos rfl]
        rfl

/-- C10: the token array built by lsh_split_line is properly terminated for
every line: starting from capacity LSH_TOK_BUFSIZE, the final write position
equals the token count and is strictly below the final capacity, the cell at
that position holds the NULL sentinel, and every cell below it holds the
corresponding token — for any token count, including zero and counts that
fill or exceed the initial capacity. -/
theorem token_array_null_terminated (line : List Char) (g : Nat → Option (List Char)) :
    (splitSim (lsh_split_line line) 0 LSH_TOK_BUFSIZE g).pos =
      (lsh_split_line line).length ∧
    (splitSim (lsh_split_line line) 0 LSH_TOK_BUFSIZE g).pos <
      (splitSim (lsh_split_line line) 0 LSH_TOK_BUFSIZE g).buffsize ∧
    (splitSim (lsh_split_line line) 0 LSH_TOK_BUFSIZE g).arr
      ((splitSim (lsh_split_line line) 0 LSH_TOK_BUFSIZE g).pos) = none ∧
    (∀ i, ∀ h : i < (lsh_split_line line).length,
      (splitSim (lsh_split_line line) 0 LSH_TOK_BUFSIZE g).arr i =
        some ((lsh_split_line line).get ⟨i, h⟩)) := by
  obtain ⟨h1, h2, h3, h4, h5⟩ :=
    splitSim_spec (lsh_split_line line) 0 LSH_TOK_BUFSIZE g (by decide)
  refine ⟨by simpa using h1, h2, h3, ?_⟩
  intro i h
  simpa using h5 i h

theorem token_array_null_terminated_witness :
    0 < (lsh_split_line ("a b".toList)).length ∧
    (splitSim (lsh_split_line ("a b".toList)) 0 LSH_TOK_BUFSIZE
        (fun _ => (none : Option (List Char)))).arr 0 = some ("a".toList) := by
  refine ⟨by decide, ?_⟩
  have h := (token_array_null_terminated ("a b".toList)
    (fun _ => (none : Option (List Char)))).2.2.2 0 (by decide)
  rw [h]
  decide

theorem lsh_launch_always_continue_witness :
    lsh_launch ["ls".toList] .failed = (LSH_CONTINUE, [Eff.errStr "lsh"]) :=
  (lsh_launch_always_continue ["ls".toList] .failed).2.1

theorem lsh_split_line_run_count_witness :
    (lsh_split_line ("ab  cd".toList)).length = specRunCount ("ab  cd".toList) :=
  (lsh_split_line_run_count ("ab  cd".toList)).1

theorem lsh_exit_terminates_witness :
    lsh_exit ["exit".toList, "3".toList] = (LSH_TERMINATE, []) :=
  lsh_exit_terminates.1 ["exit".toList, "3".toList]

theorem lsh_help_output_witness :
    (lsh_help ["help".toList]).snd.all Eff.isOut = true :=
  (lsh_help_output ["help".toList]).2.1

theorem exit_only_terminate_witness :
    (lsh_execute ["exit".toList, "now".toList] ⟨true, .failed⟩).fst = LSH_TERMINATE :=
  (exit_only_terminate ["exit".toList, "now".toList] ⟨true, .failed⟩).mpr
    ⟨["now".toList], rfl⟩
